import Mathlib

/-!
Verification development for the `pluginengine` package (Flask-PluginEngine).

Shallow embedding of the core modules:
- `pluginengine/util.py`: `resolve_dependencies`, `make_hashable`, `memoize`,
  `wrap_in_plugin_context`, `trim_docstring`.
- `pluginengine/engine.py`: `PluginEngine.load_plugins`, `_import_plugins`,
  `get_active_plugins`, `get_failed_plugins`, `has_plugin`, `get_plugin`.
- `pluginengine/plugin.py`: `Plugin.plugin_context`, `Plugin.title`,
  `Plugin.description`.

Python strings used as docstrings are embedded as `List Char`; plugin names are
embedded as `String`.  Python sets of names are embedded as `List String`
with membership-based semantics; Python dicts keyed by names are embedded as
association lists whose key lists stay duplicate-free.
-/

namespace Pluginengine

/-! ## Data model

A plugin class, as seen by the engine after the entry point loaded it.
The class attributes mirror `pluginengine/plugin.py` (class `Plugin`):
`required_plugins`/`used_plugins` are the dependency sets, the remaining
attributes are filled in by `_import_plugins`.  The `is_plugin` flag embeds
the result of Python's `issubclass(plugin_class, self.plugin_class)` check,
which is an intrinsic property of the loaded object. -/
structure PluginClass where
  required_plugins : List String := []
  used_plugins : List String := []
  is_plugin : Bool := true
  version : Option String := none
  package_name : Option String := none
  package_version : Option String := none
  name : Option String := none
  root_path : Option String := none
deriving DecidableEq, Repr

/-! ## Dependency resolver (`pluginengine/util.py`, `resolve_dependencies`) -/

/-- Embeds the Python set inclusion `s <= resolved_deps` used on each
dependency set of a plugin. -/
def subsetOf (xs resolved : List String) : Bool :=
  xs.all (fun d => resolved.contains d)

/-- Readiness test of the first tier: `all(d <= resolved_deps for d in deps)`,
i.e. both the required set and the used set are included in `resolved_deps`. -/
def fullyReady (resolved : List String) (p : String × PluginClass) : Bool :=
  subsetOf p.2.required_plugins resolved && subsetOf p.2.used_plugins resolved

/-- Readiness test of the second tier: `deps[0] <= resolved_deps`, i.e. only
the required (hard) dependencies are included in `resolved_deps`. -/
def requiredReady (resolved : List String) (p : String × PluginClass) : Bool :=
  subsetOf p.2.required_plugins resolved

/-- The candidates with both hard and soft dependencies met (line 39 of
`util.py`). -/
def readyFull (resolved : List String) (pending : List (String × PluginClass)) :
    List (String × PluginClass) :=
  pending.filter (fullyReady resolved)

/-- The candidates with all hard dependencies met (line 42 of `util.py`). -/
def readyHard (resolved : List String) (pending : List (String × PluginClass)) :
    List (String × PluginClass) :=
  pending.filter (requiredReady resolved)

/-- The `ready` set of one iteration of the `while` loop: first tier if it is
non-empty, otherwise the relaxed second tier. -/
def nextReady (resolved : List String) (pending : List (String × PluginClass)) :
    List (String × PluginClass) :=
  let r := readyFull resolved pending
  if r.isEmpty then readyHard resolved pending else r

/-- The predicate `nextReady` filters `pending` with. -/
def nextPred (resolved : List String) (pending : List (String × PluginClass)) :
    (String × PluginClass) → Bool :=
  if (readyFull resolved pending).isEmpty then requiredReady resolved
  else fullyReady resolved

/-- Embeds `del plugins_deps[name] for name in ready`: the pending entries
whose name was just emitted are removed. -/
def removePending (names : List String) (pending : List (String × PluginClass)) :
    List (String × PluginClass) :=
  pending.filter (fun p => !(names.contains p.1))

/-- The `while plugins_deps:` loop of `resolve_dependencies`.  The Boolean
component is `true` when the loop drained all candidates and `false` when the
`raise Exception(...)` on line 45 fires; the list component contains the pairs
yielded before termination or before the raise (the generator yields each
`ready` batch before the next iteration can fail).  `fuel` bounds the number
of iterations; each iteration removes at least one pending candidate, so
`pending.length` is always enough fuel. -/
def resolveLoop : Nat → List String → List (String × PluginClass) →
    List (String × PluginClass) × Bool
  | 0, _, pending => ([], pending.isEmpty)
  | fuel + 1, resolved, pending =>
    if pending.isEmpty then ([], true)
    else
      let ready := nextReady resolved pending
      if ready.isEmpty then ([], false)
      else
        let names := ready.map Prod.fst
        let out := resolveLoop fuel (resolved ++ names) (removePending names pending)
        (ready ++ out.1, out.2)

/-- Embeds `resolve_dependencies(plugins)` (line 25 of `util.py`): the fully
consumed generator.  The first component is the sequence of `(name, class)`
pairs yielded; the second is `true` unless the unresolvable-dependency
exception was raised. -/
def resolve_dependencies (plugins : List (String × PluginClass)) :
    List (String × PluginClass) × Bool :=
  resolveLoop plugins.length [] plugins

/-- The resolver raises on the state `(resolved, pending)`: either the state
is already stuck (candidates remain and none has all required dependencies
inside `resolved`), or the loop takes its deterministic step and the successor
state raises. -/
inductive Unresolvable : List String → List (String × PluginClass) → Prop where
  | stuck (resolved : List String) (pending : List (String × PluginClass)) :
      pending ≠ [] → readyHard resolved pending = [] →
      Unresolvable resolved pending
  | step (resolved : List String) (pending : List (String × PluginClass)) :
      nextReady resolved pending ≠ [] →
      Unresolvable (resolved ++ (nextReady resolved pending).map Prod.fst)
        (removePending ((nextReady resolved pending).map Prod.fst) pending) →
      Unresolvable resolved pending

/-! ## Engine (`pluginengine/engine.py`) -/

/-- Outcome of `entry_point.load()`.  Only `ImportError` is caught by
`_import_plugins`; any other exception propagates. -/
inductive LoadResult where
  | ok : PluginClass → LoadResult
  | errImport : LoadResult
  | errOther : LoadResult
deriving DecidableEq, Repr

/-- An entry point as produced by `iter_entry_points`. -/
structure EntryPoint where
  module_name : String
  loadResult : LoadResult
deriving DecidableEq, Repr

/-- The external collaborators of the engine: `iter_entry_points` (restricted
to the engine's fixed namespace), `get_distribution(...).version` and
`get_root_path`. -/
structure Env where
  entry_points : String → List EntryPoint
  distribution_version : String → String
  rootPathOf : String → String

/-- Exceptions that can escape `load_plugins`. -/
inductive PyErr where
  | doubleLoad : PyErr
  | loadErr : PyErr
  | unresolvableDeps : PyErr
deriving DecidableEq, Repr

/-- The `_PluginEngineState` fields relevant to the claims.  A successfully
loaded plugin instance is represented by the (mutated) class it was
instantiated from: `instance = cls(self)` stores no further information the
claims depend on. -/
structure EngineSt where
  plugins : List (String × PluginClass) := []
  failed : List String := []
  plugins_loaded : Bool := false
deriving DecidableEq, Repr

/-- Adding a name to the Python set `state.failed`. -/
def addFailed (fs : List String) (n : String) : List String :=
  if fs.contains n then fs else fs ++ [n]

/-- Python dict assignment `d[k] = v`: replace the value if the key exists,
append otherwise. -/
def dictInsert (ps : List (String × PluginClass)) (k : String) (v : PluginClass) :
    List (String × PluginClass) :=
  if ps.any (fun p => p.1 == k) then
    ps.map (fun p => if p.1 == k then (k, v) else p)
  else ps ++ [(k, v)]

/-- Key membership in an embedded dict. -/
def hasKey (ps : List (String × PluginClass)) (n : String) : Prop :=
  n ∈ ps.map Prod.fst

instance (ps : List (String × PluginClass)) (n : String) :
    Decidable (hasKey ps n) := by
  unfold hasKey; infer_instance

/-- One iteration of the `for name in self.plugins_to_load:` loop in
`_import_plugins` (lines 59-87 of `engine.py`).  Returns the exception that
propagated (if any) together with the updated local `plugins` dict and the
updated `state.failed` set. -/
def loadOne (env : Env) (ps : List (String × PluginClass)) (fs : List String)
    (n : String) : Option PyErr × List (String × PluginClass) × List String :=
  let eps := env.entry_points n
  if eps.isEmpty then
    (none, ps, addFailed fs n)
  else if eps.length > 1 then
    (none, ps, addFailed fs n)
  else
    let ep := eps.headD { module_name := "", loadResult := .errImport }
    match ep.loadResult with
    | .errImport => (none, ps, addFailed fs n)
    | .errOther => (some .loadErr, ps, fs)
    | .ok cls =>
      if !cls.is_plugin then (none, ps, addFailed fs n)
      else
        let pkg := String.mk (ep.module_name.toList.takeWhile (fun c => c != '.'))
        let pkgVersion := env.distribution_version pkg
        let cls :=
          { cls with
            package_name := some pkg
            package_version := some pkgVersion
            version := match cls.version with
              | none => some pkgVersion
              | some v => some v
            name := some n
            root_path := some (env.rootPathOf ep.module_name) }
        (none, dictInsert ps n cls, fs)

/-- The whole loop of `_import_plugins`: processes the requested names in
order, aborting when an iteration lets an exception propagate. -/
def _import_plugins (env : Env) :
    List String → List (String × PluginClass) → List String →
    Option PyErr × List (String × PluginClass) × List String
  | [], ps, fs => (none, ps, fs)
  | n :: rest, ps, fs =>
    match loadOne env ps fs n with
    | (some e, ps', fs') => (some e, ps', fs')
    | (none, ps', fs') => _import_plugins env rest ps' fs'

/-- Embeds `PluginEngine.load_plugins` (lines 30-49 of `engine.py`).  Python
mutates `state` in place, so the embedding returns the final state together
with the result: `Except.error` for a propagating exception, `Except.ok` for
a normal return.  The `plugins_loaded.send()` signal has no effect on the
engine state and is not modelled. -/
def load_plugins (env : Env) (names : List String) (skip_failed : Bool)
    (st : EngineSt) : Except PyErr Bool × EngineSt :=
  if st.plugins_loaded then (Except.error .doubleLoad, st)
  else
    let st1 : EngineSt := { st with plugins_loaded := true }
    match _import_plugins env names [] st1.failed with
    | (some e, _, fs') => (Except.error e, { st1 with failed := fs' })
    | (none, cands, fs') =>
      let st2 : EngineSt := { st1 with failed := fs' }
      if !st2.failed.isEmpty && !skip_failed then (Except.ok false, st2)
      else
        let res := resolve_dependencies cands
        let st3 : EngineSt :=
          { st2 with
            plugins := res.1.foldl (fun acc p => dictInsert acc p.1 p.2) st2.plugins }
        if !res.2 then (Except.error .unresolvableDeps, st3)
        else (Except.ok st3.failed.isEmpty, st3)

/-- Embeds `get_failed_plugins` (returns a frozen copy of `state.failed`). -/
def get_failed_plugins (st : EngineSt) : List String :=
  st.failed

/-- Embeds `get_active_plugins` (returns an immutable copy of
`state.plugins`). -/
def get_active_plugins (st : EngineSt) : List (String × PluginClass) :=
  st.plugins

/-- Embeds `has_plugin`. -/
def has_plugin (st : EngineSt) (n : String) : Prop :=
  hasKey st.plugins n

/-- Embeds `get_plugin` (`state.plugins.get(name)`). -/
def get_plugin (st : EngineSt) (n : String) : Option PluginClass :=
  (st.plugins.find? (fun p => p.1 == n)).map Prod.snd

/-! ## Execution context stack (`pluginengine/plugin.py`, `plugin_context`)

Modelled from the spec: the stack object `_plugin_ctx_stack` itself lives in
`pluginengine/globals.py`, which is not part of the sources at hand; per the
spec it is an ordered stack of currently-active-plugin references where
`Push` appends to the top and `Pop` removes and returns the top entry (an
absent-marker when empty).  The stack is a `List Nat` with its head on top;
plugins are identified by opaque ids.  `Plugin.plugin_context` itself is in
the sources (lines 89-96 of `plugin.py`): push, run the body, and in the
`finally` clause pop and assert the popped entry is the plugin. -/
inductive BodyResult where
  | normal : BodyResult
  | raised : BodyResult
  | assertFail : BodyResult
deriving DecidableEq, Repr

/-- Client code whose stack use goes exclusively through the scoped
`plugin_context` acquisition: it can return normally, raise, run two pieces
in sequence, or run a piece inside `with plugin.plugin_context():`. -/
inductive Body where
  | ret : Body
  | raise : Body
  | seq : Body → Body → Body
  | scope : Nat → Body → Body

/-- Runs a body against a context stack.  The `scope p b` case embeds
`Plugin.plugin_context`: `_plugin_ctx_stack.push(self)`, run the body, then
`assert _plugin_ctx_stack.pop() is self` on every exit path; popping the
wrong plugin (or an empty stack, whose pop yields the absent-marker) turns
the outcome into an assertion failure. -/
def runBody : Body → List Nat → List Nat × BodyResult
  | .ret, s => (s, .normal)
  | .raise, s => (s, .raised)
  | .seq b1 b2, s =>
    match runBody b1 s with
    | (s1, .normal) => runBody b2 s1
    | r => r
  | .scope p b, s =>
    let r := runBody b (p :: s)
    match r.1 with
    | [] => ([], .assertFail)
    | top :: rest => if top = p then (rest, r.2) else (rest, .assertFail)

/-! ## Memoized wrapping (`pluginengine/util.py`, `make_hashable`, `memoize`,
`wrap_in_plugin_context`)

Python objects passed through `make_hashable` are embedded as trees: opaque
objects (plugin instances, functions) are atoms carrying their identity,
and lists, tuples, dicts and frozensets carry their elements. -/
inductive PyVal where
  | atom : Nat → PyVal
  | tup : List PyVal → PyVal
  | lst : List PyVal → PyVal
  | dict : List (PyVal × PyVal) → PyVal
  | frozen : List (PyVal × PyVal) → PyVal

mutual
/-- Embeds `make_hashable` (lines 52-58 of `util.py`): a list becomes a
tuple, a dict becomes a frozenset of `(key, make_hashable(value))` pairs,
anything else is returned unchanged. -/
def make_hashable : PyVal → PyVal
  | .lst xs => .tup xs
  | .dict kvs => .frozen (make_hashable_pairs kvs)
  | v => v

/-- The generator expression `(k, make_hashable(v)) for k, v in iteritems(obj)`. -/
def make_hashable_pairs : List (PyVal × PyVal) → List (PyVal × PyVal)
  | [] => []
  | (k, v) :: t => (k, make_hashable v) :: make_hashable_pairs t
end

mutual
/-- Structural equality of embedded Python values, i.e. the `==` used by the
`key not in cache` dict lookup inside `memoize` (atoms compare by object
identity, Python's default `__eq__`). -/
def pyValBeq : PyVal → PyVal → Bool
  | .atom a, .atom b => a == b
  | .tup xs, .tup ys => pyListBeq xs ys
  | .lst xs, .lst ys => pyListBeq xs ys
  | .dict xs, .dict ys => pyPairsBeq xs ys
  | .frozen xs, .frozen ys => pyPairsBeq xs ys
  | _, _ => false

/-- Elementwise equality of embedded sequences. -/
def pyListBeq : List PyVal → List PyVal → Bool
  | [], [] => true
  | x :: xs, y :: ys => pyValBeq x y && pyListBeq xs ys
  | _, _ => false

/-- Elementwise equality of embedded pair sequences. -/
def pyPairsBeq : List (PyVal × PyVal) → List (PyVal × PyVal) → Bool
  | [], [] => true
  | (k1, v1) :: xs, (k2, v2) :: ys =>
    pyValBeq k1 k2 && pyValBeq v1 v2 && pyPairsBeq xs ys
  | _, _ => false
end

/-- The memoization key of one call: `(make_hashable(args), make_hashable(kwargs))`. -/
abbrev MemoKey : Type := PyVal × PyVal

/-- Equality of memoization keys. -/
def keyBeq (a b : MemoKey) : Bool :=
  pyValBeq a.1 b.1 && pyValBeq a.2 b.2

/-- The memoizer's cache: `key -> wrapper`, with wrappers identified by the
opaque id of the function object `wrapped` created for the cache miss. -/
abbrev MemoCache : Type := List (MemoKey × Nat)

/-- Cache lookup, i.e. `key not in cache` / `cache[key]`. -/
def cacheFind : MemoCache → MemoKey → Option Nat
  | [], _ => none
  | (k, w) :: t, key => if keyBeq k key then some w else cacheFind t key

/-- One call of the memoized `wrap_in_plugin_context(plugin, func)` (lines
62-84 of `util.py`).  `args = (plugin, func)` and `kwargs = {}` form the
cache key; on a miss a fresh wrapper identity is created (`fresh` is the next
unused id) and stored; on a hit the cached wrapper is returned and nothing
changes.  Result: the wrapper returned, the cache, and the next fresh id. -/
def wrap_in_plugin_context (cache : MemoCache) (fresh : Nat)
    (plugin func : PyVal) : Nat × MemoCache × Nat :=
  let key : MemoKey :=
    (make_hashable (.tup [plugin, func]), make_hashable (.dict []))
  match cacheFind cache key with
  | some w => (w, cache, fresh)
  | none => (fresh, cache ++ [(key, fresh)], fresh + 1)

/-! ## Docstrings (`pluginengine/util.py`, `trim_docstring`;
`pluginengine/plugin.py`, `Plugin.title` / `Plugin.description`)

Docstrings are embedded as `List Char`.  A missing docstring (`None`) and an
empty one both fail Python's `if not docstring:` test and behave
identically, so both are embedded as `[]`. -/

/-- Python's whitespace test used by `str.strip` / `lstrip` / `rstrip`
without arguments (ASCII portion). -/
def pyIsSpace (c : Char) : Bool :=
  c = ' ' || c = '\t' || c = '\n' || c = '\r' || c = '\x0b' || c = '\x0c'

/-- Embeds `str.lstrip()`. -/
def lstrip (s : List Char) : List Char :=
  s.dropWhile pyIsSpace

/-- Embeds `str.rstrip()`. -/
def rstrip (s : List Char) : List Char :=
  (s.reverse.dropWhile pyIsSpace).reverse

/-- Embeds `str.strip()`. -/
def pyStrip (s : List Char) : List Char :=
  rstrip (lstrip s)

/-- Embeds `str.expandtabs()` with the default tab size 8: each tab is
replaced by spaces up to the next multiple-of-8 column; newlines and
carriage returns reset the column. -/
def expandtabsFrom : Nat → List Char → List Char
  | _, [] => []
  | col, c :: cs =>
    if c = '\t' then
      let pad := 8 - col % 8
      List.replicate pad ' ' ++ expandtabsFrom (col + pad) cs
    else if c = '\n' || c = '\r' then c :: expandtabsFrom 0 cs
    else c :: expandtabsFrom (col + 1) cs

/-- Embeds `str.expandtabs()`. -/
def expandtabs (s : List Char) : List Char :=
  expandtabsFrom 0 s

/-- The line-boundary characters recognised by `str.splitlines()`. -/
def isLineBreak (c : Char) : Bool :=
  c = '\n' || c = '\r' || c = '\x0b' || c = '\x0c' || c = '\x1c' ||
    c = '\x1d' || c = '\x1e' || c = '\x85' || c = '\u2028' || c = '\u2029'

/-- Splits off the first line: returns it together with the input after the
first line boundary (`\r\n` counts as a single boundary). -/
def breakLine : List Char → List Char × List Char
  | [] => ([], [])
  | c :: cs =>
    if c = '\r' then
      ([], match cs with
        | '\n' :: t => t
        | _ => cs)
    else if isLineBreak c then ([], cs)
    else
      let r := breakLine cs
      (c :: r.1, r.2)

/-- Worker for `splitlines`; `fuel` bounds the number of lines, and the input
length is always enough. -/
def splitlinesFrom : Nat → List Char → List (List Char)
  | 0, _ => []
  | _, [] => []
  | fuel + 1, s =>
    let r := breakLine s
    r.1 :: splitlinesFrom fuel r.2

/-- Embeds `str.splitlines()` (no trailing empty line, empty input gives no
lines). -/
def splitlines (s : List Char) : List (List Char) :=
  splitlinesFrom s.length s

/-- The minimum indentation of the given lines, ignoring blank lines; `none`
embeds the untouched `sys.maxsize` sentinel (no non-blank line seen). -/
def minIndent (lines : List (List Char)) : Option Nat :=
  lines.foldl
    (fun acc line =>
      let stripped := lstrip line
      if stripped.isEmpty then acc
      else
        let w := line.length - stripped.length
        match acc with
        | none => some w
        | some i => some (min i w))
    none

/-- Drops trailing blank lines: `while trimmed and not trimmed[-1]:
trimmed.pop()`. -/
def dropTrailingBlanks (lines : List (List Char)) : List (List Char) :=
  (lines.reverse.dropWhile List.isEmpty).reverse

/-- Embeds `'\n'.join(lines)`. -/
def joinLines (lines : List (List Char)) : List Char :=
  List.intercalate ['\n'] lines

/-- Embeds `trim_docstring` (lines 98-125 of `util.py`), the PEP 257
docstring-trimming algorithm. -/
def trim_docstring (docstring : List Char) : List Char :=
  if docstring.isEmpty then []
  else
    let lines := splitlines (expandtabs docstring)
    let first := lines.headD []
    let rest := lines.tail
    let trimmed :=
      match minIndent rest with
      | none => [pyStrip first]
      | some indent => pyStrip first :: rest.map (fun line => rstrip (line.drop indent))
    let trimmed := dropTrailingBlanks trimmed
    let trimmed := trimmed.dropWhile List.isEmpty
    joinLines trimmed

/-- Embeds `str.split('\n', 1)`. -/
def splitOnceNl (s : List Char) : List (List Char) :=
  if s.contains '\n' then
    [s.takeWhile (fun c => c != '\n'), (s.dropWhile (fun c => c != '\n')).tail]
  else [s]

/-- The fixed fallback description. -/
def noDescription : List Char :=
  ['n', 'o', ' ', 'd', 'e', 's', 'c', 'r', 'i', 'p', 't', 'i', 'o', 'n', ' ',
    'a', 'v', 'a', 'i', 'l', 'a', 'b', 'l', 'e']

/-- Embeds the `Plugin.title` property (lines 76-79 of `plugin.py`). -/
def Plugin.title (doc : List Char) : List Char :=
  pyStrip ((splitOnceNl (trim_docstring doc)).headD [])

/-- Embeds the `Plugin.description` property (lines 81-87 of `plugin.py`):
`parts[1].strip()`, or the fallback when indexing raises `IndexError`. -/
def Plugin.description (doc : List Char) : List Char :=
  match (splitOnceNl (trim_docstring doc)).get? 1 with
  | some restPart => pyStrip restPart
  | none => noDescription

/-- The first line of a string, as the claim about `title` words it. -/
def firstLine (s : List Char) : List Char :=
  s.takeWhile (fun c => c != '\n')

/-- The remainder of a string after its first line, as the claim about
`description` words it. -/
def afterFirstLine (s : List Char) : List Char :=
  (s.dropWhile (fun c => c != '\n')).tail

/-! ## Concrete fixtures

Small concrete plugin classes, candidate maps and environments used to
instantiate the theorems and to exhibit counterexamples. -/

/-- A plugin class with no dependencies. -/
def pcPlain : PluginClass := {}

/-- A plugin class softly depending on `b`. -/
def pcUsesB : PluginClass := { used_plugins := ["b"] }

/-- A plugin class softly depending on `a`. -/
def pcUsesA : PluginClass := { used_plugins := ["a"] }

/-- A plugin class hard-depending on `b`. -/
def pcNeedsB : PluginClass := { required_plugins := ["b"] }

/-- A plugin class hard-depending on `a`. -/
def pcNeedsA : PluginClass := { required_plugins := ["a"] }

/-- Two candidates in a pure soft-dependency cycle. -/
def softCyclePlugins : List (String × PluginClass) := [("a", pcUsesB), ("b", pcUsesA)]

/-- Two candidates in a pure required-dependency cycle. -/
def hardCyclePlugins : List (String × PluginClass) := [("a", pcNeedsB), ("b", pcNeedsA)]

/-- A two-candidate chain: `b` requires `a`. -/
def chainPlugins : List (String × PluginClass) := [("a", pcPlain), ("b", pcNeedsA)]

/-- An environment where `good` resolves to one valid plugin class and every
other name has no entry point. -/
def envMixed : Env :=
  { entry_points := fun n =>
      if n = "good" then [{ module_name := "pkg.mod", loadResult := .ok pcPlain }]
      else []
    distribution_version := fun _ => "1.2.3"
    rootPathOf := fun _ => "/pkg" }

/-- An environment where the entry point of `boom` raises a non-ImportError
exception from its load step, and `later` would load fine. -/
def envOther : Env :=
  { entry_points := fun n =>
      if n = "boom" then [{ module_name := "pkg.mod", loadResult := .errOther }]
      else if n = "later" then [{ module_name := "pkg.mod", loadResult := .ok pcPlain }]
      else []
    distribution_version := fun _ => "1.2.3"
    rootPathOf := fun _ => "/pkg" }

/-- An environment where the entry point of `x` raises `ImportError` and
`y` loads fine. -/
def envImpFail : Env :=
  { entry_points := fun n =>
      if n = "x" then [{ module_name := "pkg.mod", loadResult := .errImport }]
      else if n = "y" then [{ module_name := "pkg.mod", loadResult := .ok pcPlain }]
      else []
    distribution_version := fun _ => "1.2.3"
    rootPathOf := fun _ => "/pkg" }

/-- The engine state after loading `good` (succeeds) and `bad` (no entry
point) with `skip_failed = true` from a fresh engine. -/
def stMixedLoaded : EngineSt := (load_plugins envMixed ["good", "bad"] true {}).2

/-! ## Discovery outcome classification

The branch `loadOne` takes for a name depends only on the environment and the
name; these three tests name the possible outcomes (recoverable failure,
propagating non-ImportError exception, success). -/

/-- The name ends in `state.failed`: no entry point, several entry points,
`ImportError` from `load()`, or a class failing the `issubclass` check. -/
def discoveryFails (env : Env) (n : String) : Bool :=
  match env.entry_points n with
  | [] => true
  | [ep] =>
    match ep.loadResult with
    | .ok cls => !cls.is_plugin
    | .errImport => true
    | .errOther => false
  | _ => true

/-- The single entry point's `load()` raises something other than
`ImportError`, which propagates out of `_import_plugins`. -/
def discoveryRaises (env : Env) (n : String) : Bool :=
  match env.entry_points n with
  | [ep] =>
    match ep.loadResult with
    | .errOther => true
    | _ => false
  | _ => false

/-- The name produces a validated candidate class. -/
def discoverySucceeds (env : Env) (n : String) : Bool :=
  !discoveryFails env n && !discoveryRaises env n

/-! ## Helper lemmas: dependency resolver -/

theorem contains_true_iff_mem (l : List String) (a : String) :
    l.contains a = true ↔ a ∈ l := by
  simp

theorem subsetOf_mem {xs ys : List String} (h : subsetOf xs ys = true) {d : String}
    (hd : d ∈ xs) : d ∈ ys := by
  unfold subsetOf at h
  have h2 := List.all_eq_true.mp h d hd
  simpa using h2

theorem fullyReady_requiredReady {resolved : List String} {p : String × PluginClass}
    (h : fullyReady resolved p = true) : requiredReady resolved p = true := by
  unfold fullyReady at h
  exact ((Bool.and_eq_true _ _).mp h).1

theorem mem_nextReady {resolved : List String} {pending : List (String × PluginClass)}
    {p : String × PluginClass} (h : p ∈ nextReady resolved pending) :
    p ∈ pending ∧ requiredReady resolved p = true := by
  unfold nextReady at h
  by_cases he : (readyFull resolved pending).isEmpty
  · simp only [he, if_true] at h
    unfold readyHard at h
    exact ⟨(List.mem_filter.mp h).1, (List.mem_filter.mp h).2⟩
  · simp only [he, if_false] at h
    unfold readyFull at h
    exact ⟨(List.mem_filter.mp h).1, fullyReady_requiredReady (List.mem_filter.mp h).2⟩

theorem nextReady_eq_filter (resolved : List String)
    (pending : List (String × PluginClass)) :
    nextReady resolved pending = pending.filter (nextPred resolved pending) := by
  unfold nextReady nextPred readyFull readyHard
  by_cases he : (pending.filter (fullyReady resolved)).isEmpty <;> simp [he]

theorem readyHard_nil_readyFull {resolved : List String}
    {pending : List (String × PluginClass)} (h : readyHard resolved pending = []) :
    readyFull resolved pending = [] := by
  rcases hx : readyFull resolved pending with _ | ⟨p, t⟩
  · rfl
  · exfalso
    have hp : p ∈ readyFull resolved pending := by rw [hx]; exact List.mem_cons_self _ _
    unfold readyFull at hp
    have hmem := List.mem_filter.mp hp
    have : p ∈ readyHard resolved pending := by
      unfold readyHard
      exact List.mem_filter.mpr ⟨hmem.1, fullyReady_requiredReady hmem.2⟩
    rw [h] at this
    exact (List.not_mem_nil p) this

theorem nextReady_nil_iff (resolved : List String)
    (pending : List (String × PluginClass)) :
    nextReady resolved pending = [] ↔ readyHard resolved pending = [] := by
  constructor
  · intro h
    unfold nextReady at h
    by_cases he : (readyFull resolved pending).isEmpty
    · simpa [he] using h
    · simp [he] at h
      rw [h] at he
      simp at he
  · intro h
    unfold nextReady
    have hf := readyHard_nil_readyFull h
    simp [hf, h]

theorem filter_length_lt {A : Type} {l : List A} {pr : A → Bool} {x : A}
    (hx : x ∈ l) (hpx : pr x = false) : (l.filter pr).length < l.length := by
  induction l with
  | nil => cases hx
  | cons a t ih =>
    rcases List.mem_cons.mp hx with rfl | hxt
    · rw [List.filter_cons, hpx]
      exact Nat.lt_succ_of_le (List.length_filter_le pr t)
    · rw [List.filter_cons]
      by_cases ha : pr a
      · simpa [ha] using Nat.succ_lt_succ (ih hxt)
      · simp only [ha]
        exact Nat.lt_succ_of_lt (ih hxt)

theorem removePending_length_lt {resolved : List String}
    {pending : List (String × PluginClass)}
    (h : nextReady resolved pending ≠ []) :
    (removePending ((nextReady resolved pending).map Prod.fst) pending).length <
      pending.length := by
  rcases hx : nextReady resolved pending with _ | ⟨p, t⟩
  · exact absurd hx h
  · have hp : p ∈ nextReady resolved pending := by rw [hx]; exact List.mem_cons_self _ _
    have hmem := (mem_nextReady hp).1
    unfold removePending
    refine filter_length_lt hmem ?_
    have : p.1 ∈ (nextReady resolved pending).map Prod.fst :=
      List.mem_map.mpr ⟨p, hp, rfl⟩
    simp [this]


theorem load_plugins_of_raise {env : Env} {names : List String} (skip : Bool)
    {st : EngineSt} {e : PyErr} {ps2 : List (String × PluginClass)} {fs2 : List String}
    (hld : st.plugins_loaded = false)
    (h : _import_plugins env names [] st.failed = (some e, ps2, fs2)) :
    load_plugins env names skip st =
      (Except.error e, { st with plugins_loaded := true, failed := fs2 }) := by
  unfold load_plugins
  simp only [hld, Bool.false_eq_true, if_false]
  rw [show ({ st with plugins_loaded := true } : EngineSt).failed = st.failed from rfl, h]

theorem load_plugins_of_noskip {env : Env} {names : List String}
    {st : EngineSt} {cands : List (String × PluginClass)} {fs2 : List String}
    (hld : st.plugins_loaded = false)
    (h : _import_plugins env names [] st.failed = (none, cands, fs2))
    (hne : fs2.isEmpty = false) :
    load_plugins env names false st =
      (Except.ok false, { st with plugins_loaded := true, failed := fs2 }) := by
  unfold load_plugins
  simp only [hld, Bool.false_eq_true, if_false]
  rw [show ({ st with plugins_loaded := true } : EngineSt).failed = st.failed from rfl, h]
  simp [hne]

theorem load_plugins_of_ok {env : Env} {names : List String} {skip : Bool}
    {st : EngineSt} {cands : List (String × PluginClass)} {fs2 : List String}
    (hld : st.plugins_loaded = false)
    (h : _import_plugins env names [] st.failed = (none, cands, fs2))
    (hc : (!fs2.isEmpty && !skip) = false)
    (hok : (resolve_dependencies cands).2 = true) :
    load_plugins env names skip st =
      (Except.ok fs2.isEmpty,
        { st with
          plugins_loaded := true
          failed := fs2
          plugins := (resolve_dependencies cands).1.foldl
            (fun acc p => dictInsert acc p.1 p.2) st.plugins }) := by
  unfold load_plugins
  simp only [hld, Bool.false_eq_true, if_false]
  rw [show ({ st with plugins_loaded := true } : EngineSt).failed = st.failed from rfl, h]
  simp [hc, hok]

theorem load_plugins_of_unresolvable {env : Env} {names : List String} {skip : Bool}
    {st : EngineSt} {cands : List (String × PluginClass)} {fs2 : List String}
    (hld : st.plugins_loaded = false)
    (h : _import_plugins env names [] st.failed = (none, cands, fs2))
    (hc : (!fs2.isEmpty && !skip) = false)
    (hok : (resolve_dependencies cands).2 = false) :
    load_plugins env names skip st =
      (Except.error PyErr.unresolvableDeps,
        { st with
          plugins_loaded := true
          failed := fs2
          plugins := (resolve_dependencies cands).1.foldl
            (fun acc p => dictInsert acc p.1 p.2) st.plugins }) := by
  unfold load_plugins
  simp only [hld, Bool.false_eq_true, if_false]
  rw [show ({ st with plugins_loaded := true } : EngineSt).failed = st.failed from rfl, h]
  simp [hc, hok]


theorem resolveLoop_required_earlier (fuel : Nat) :
    ∀ (resolved : List String) (pending pre : List (String × PluginClass))
      (p : String × PluginClass) (post : List (String × PluginClass)),
      (resolveLoop fuel resolved pending).1 = pre ++ p :: post →
      ∀ d ∈ p.2.required_plugins, d ∈ resolved ∨ d ∈ pre.map Prod.fst := by
  induction fuel with
  | zero =>
    intro resolved pending pre p post h
    simp [resolveLoop] at h
  | succ fuel ih =>
    intro resolved pending pre p post h
    by_cases hpe : pending.isEmpty
    · simp [resolveLoop, hpe] at h
    · by_cases hre : (nextReady resolved pending).isEmpty
      · simp [resolveLoop, hpe, hre] at h
      · have h2 : nextReady resolved pending ++
            (resolveLoop fuel (resolved ++ (nextReady resolved pending).map Prod.fst)
              (removePending ((nextReady resolved pending).map Prod.fst) pending)).1 =
            pre ++ p :: post := by
          simpa [resolveLoop, hpe, hre] using h
        rcases List.append_eq_append_iff.mp h2 with ⟨a2, hpre, hrest⟩ | ⟨c2, hready, hppost⟩
        · intro d hd
          subst hpre
          simp only [List.map_append, List.mem_append]
          rcases ih _ _ a2 p post hrest d hd with h3 | h3
          · rcases List.mem_append.mp h3 with h4 | h4
            · exact Or.inl h4
            · exact Or.inr (Or.inl h4)
          · exact Or.inr (Or.inr h3)
        · rcases c2 with _ | ⟨q, c3⟩
          · intro d hd
            have hready2 : nextReady resolved pending = pre := by simpa using hready
            have hrest : (resolveLoop fuel (resolved ++ (nextReady resolved pending).map Prod.fst)
                (removePending ((nextReady resolved pending).map Prod.fst) pending)).1 =
                [] ++ p :: post := by simpa using hppost.symm
            rcases ih _ _ [] p post hrest d hd with h3 | h3
            · rcases List.mem_append.mp h3 with h4 | h4
              · exact Or.inl h4
              · rw [hready2] at h4
                exact Or.inr h4
            · simp at h3
          · simp only [List.cons_append] at hppost
            injection hppost with hp hpost
            subst hp
            have hpready : p ∈ nextReady resolved pending := by
              rw [hready]
              exact List.mem_append.mpr (Or.inr (List.mem_cons_self _ _))
            have hreq := (mem_nextReady hpready).2
            intro d hd
            exact Or.inl (subsetOf_mem hreq hd)


theorem removePending_nodup {names : List String} {pending : List (String × PluginClass)}
    (hnd : (pending.map Prod.fst).Nodup) :
    ((removePending names pending).map Prod.fst).Nodup :=
  List.Nodup.sublist (List.Sublist.map Prod.fst (List.filter_sublist pending)) hnd

theorem filter_names_eq_nextReady {resolved : List String}
    {pending : List (String × PluginClass)}
    (hnd : (pending.map Prod.fst).Nodup) :
    pending.filter
        (fun q => ((nextReady resolved pending).map Prod.fst).contains q.1) =
      nextReady resolved pending := by
  conv_rhs => rw [nextReady_eq_filter]
  apply List.filter_congr
  intro q hq
  cases hp : nextPred resolved pending q
  · by_contra hne
    have hc : ((nextReady resolved pending).map Prod.fst).contains q.1 = true := by
      cases hx : ((nextReady resolved pending).map Prod.fst).contains q.1
      · rw [hx] at hne
        exact absurd rfl hne
      · rfl
    have hq1 : q.1 ∈ (nextReady resolved pending).map Prod.fst := by
      simpa using hc
    rcases List.mem_map.mp hq1 with ⟨r, hr, hr1⟩
    have hrp : r ∈ pending := (mem_nextReady hr).1
    have hrq : r = q := List.inj_on_of_nodup_map hnd hrp hq hr1
    rw [nextReady_eq_filter] at hr
    have hq2 := (List.mem_filter.mp hr).2
    rw [hrq, hp] at hq2
    cases hq2
  · have hqr : q ∈ nextReady resolved pending := by
      rw [nextReady_eq_filter]
      exact List.mem_filter.mpr ⟨hq, hp⟩
    have hq3 : q.1 ∈ (nextReady resolved pending).map Prod.fst :=
      List.mem_map.mpr ⟨q, hqr, rfl⟩
    simpa using hq3

theorem resolveLoop_perm (fuel : Nat) :
    ∀ (resolved : List String) (pending : List (String × PluginClass)),
      (pending.map Prod.fst).Nodup →
      (resolveLoop fuel resolved pending).2 = true →
      (resolveLoop fuel resolved pending).1.Perm pending := by
  induction fuel with
  | zero =>
    intro resolved pending hnd hok
    simp only [resolveLoop] at hok ⊢
    rw [List.isEmpty_iff.mp hok]
  | succ fuel ih =>
    intro resolved pending hnd hok
    by_cases hpe : pending.isEmpty
    · rw [List.isEmpty_iff.mp hpe]
      simp [resolveLoop]
    · by_cases hre : (nextReady resolved pending).isEmpty
      · simp [resolveLoop, hpe, hre] at hok
      · have hok2 : (resolveLoop fuel
            (resolved ++ (nextReady resolved pending).map Prod.fst)
            (removePending ((nextReady resolved pending).map Prod.fst) pending)).2 = true := by
          simpa [resolveLoop, hpe, hre] using hok
        have hnd2 := @removePending_nodup
          ((nextReady resolved pending).map Prod.fst) pending hnd
        have hperm := ih _ _ hnd2 hok2
        have hgoal : (resolveLoop (fuel + 1) resolved pending).1 =
            nextReady resolved pending ++
              (resolveLoop fuel (resolved ++ (nextReady resolved pending).map Prod.fst)
                (removePending ((nextReady resolved pending).map Prod.fst) pending)).1 := by
          simp [resolveLoop, hpe, hre]
        rw [hgoal]
        have hstep := List.Perm.append_left (nextReady resolved pending) hperm
        refine hstep.trans ?_
        have hsplit := List.filter_append_perm
          (fun q => ((nextReady resolved pending).map Prod.fst).contains q.1) pending
        rw [filter_names_eq_nextReady hnd] at hsplit
        have hrp : removePending ((nextReady resolved pending).map Prod.fst) pending =
            pending.filter
              (fun q => !((nextReady resolved pending).map Prod.fst).contains q.1) := rfl
        rw [hrp]
        exact hsplit


theorem nextReady_nil_of_pending_nil (resolved : List String) :
    nextReady resolved [] = [] := by
  simp [nextReady, readyFull, readyHard]

theorem isEmpty_false_of_mem {A : Type} {l : List A} {x : A} (h : x ∈ l) :
    l.isEmpty = false := by
  cases hx : l.isEmpty
  · rfl
  · rw [List.isEmpty_iff.mp hx] at h
    cases h

theorem unresolvable_resolveLoop_false {resolved : List String}
    {pending : List (String × PluginClass)} (h : Unresolvable resolved pending) :
    ∀ fuel, pending.length ≤ fuel → (resolveLoop fuel resolved pending).2 = false := by
  induction h with
  | stuck resolved pending hne hrh =>
    intro fuel _
    have hpe : pending.isEmpty = false := by
      cases hx : pending.isEmpty
      · rfl
      · exact absurd (List.isEmpty_iff.mp hx) hne
    cases fuel with
    | zero => simpa [resolveLoop] using hpe
    | succ fuel =>
      have hnr : nextReady resolved pending = [] := (nextReady_nil_iff _ _).mpr hrh
      simp [resolveLoop, hpe, hnr]
  | step resolved pending hne _ ih =>
    intro fuel hf
    cases fuel with
    | zero =>
      have hnil : pending = [] := List.length_eq_zero.mp (Nat.le_zero.mp hf)
      rw [hnil] at hne
      exact absurd (nextReady_nil_of_pending_nil resolved) hne
    | succ fuel =>
      have hpend_ne : pending ≠ [] := by
        intro hnil
        rw [hnil] at hne
        exact hne (nextReady_nil_of_pending_nil resolved)
      have hpe : pending.isEmpty = false := by
        cases hx : pending.isEmpty
        · rfl
        · exact absurd (List.isEmpty_iff.mp hx) hpend_ne
      have hre : (nextReady resolved pending).isEmpty = false := by
        cases hx : (nextReady resolved pending).isEmpty
        · rfl
        · exact absurd (List.isEmpty_iff.mp hx) hne
      have hlt := removePending_length_lt hne
      have hstep : (resolveLoop (fuel + 1) resolved pending).2 =
          (resolveLoop fuel (resolved ++ (nextReady resolved pending).map Prod.fst)
            (removePending ((nextReady resolved pending).map Prod.fst) pending)).2 := by
        simp [resolveLoop, hpe, hre]
      rw [hstep]
      exact ih fuel (Nat.lt_succ_iff.mp (Nat.lt_of_lt_of_le hlt hf))

theorem resolveLoop_false_unresolvable (fuel : Nat) :
    ∀ (resolved : List String) (pending : List (String × PluginClass)),
      pending.length ≤ fuel → (resolveLoop fuel resolved pending).2 = false →
      Unresolvable resolved pending := by
  induction fuel with
  | zero =>
    intro resolved pending hf h
    have hnil : pending = [] := List.length_eq_zero.mp (Nat.le_zero.mp hf)
    rw [hnil] at h
    simp [resolveLoop] at h
  | succ fuel ih =>
    intro resolved pending hf h
    by_cases hpe : pending.isEmpty
    · simp [resolveLoop, hpe] at h
    · by_cases hre : (nextReady resolved pending).isEmpty
      · refine Unresolvable.stuck _ _ ?_ ?_
        · intro hnil
          rw [hnil] at hpe
          exact hpe rfl
        · exact (nextReady_nil_iff _ _).mp (List.isEmpty_iff.mp hre)
      · have hne : nextReady resolved pending ≠ [] := by
          intro hnil
          rw [hnil] at hre
          exact hre rfl
        have h2 : (resolveLoop fuel
            (resolved ++ (nextReady resolved pending).map Prod.fst)
            (removePending ((nextReady resolved pending).map Prod.fst) pending)).2 = false := by
          simpa [resolveLoop, hpe, hre] using h
        have hlt := removePending_length_lt hne
        exact Unresolvable.step _ _ hne
          (ih _ _ (Nat.lt_succ_iff.mp (Nat.lt_of_lt_of_le hlt hf)) h2)

theorem resolveLoop_cycle_false (fuel : Nat) :
    ∀ (resolved : List String) (pending : List (String × PluginClass))
      (a b : String) (ca cb : PluginClass),
      (pending.map Prod.fst).Nodup →
      (a, ca) ∈ pending → (b, cb) ∈ pending →
      b ∈ ca.required_plugins → a ∈ cb.required_plugins →
      a ∉ resolved → b ∉ resolved →
      (resolveLoop fuel resolved pending).2 = false := by
  induction fuel with
  | zero =>
    intro resolved pending a b ca cb _ ha _ _ _ _ _
    simpa [resolveLoop] using isEmpty_false_of_mem ha
  | succ fuel ih =>
    intro resolved pending a b ca cb hnd ha hb hbreq hareq hares hbres
    have hpe : pending.isEmpty = false := isEmpty_false_of_mem ha
    by_cases hre : (nextReady resolved pending).isEmpty
    · simp [resolveLoop, hpe, hre]
    · have hanot : (a, ca) ∉ nextReady resolved pending := fun hmem =>
        hbres (subsetOf_mem (mem_nextReady hmem).2 hbreq)
      have hbnot : (b, cb) ∉ nextReady resolved pending := fun hmem =>
        hares (subsetOf_mem (mem_nextReady hmem).2 hareq)
      have hanames : a ∉ (nextReady resolved pending).map Prod.fst := by
        intro hmem
        rcases List.mem_map.mp hmem with ⟨r, hr, hr1⟩
        have hrq : r = (a, ca) :=
          List.inj_on_of_nodup_map hnd (mem_nextReady hr).1 ha hr1
        rw [hrq] at hr
        exact hanot hr
      have hbnames : b ∉ (nextReady resolved pending).map Prod.fst := by
        intro hmem
        rcases List.mem_map.mp hmem with ⟨r, hr, hr1⟩
        have hrq : r = (b, cb) :=
          List.inj_on_of_nodup_map hnd (mem_nextReady hr).1 hb hr1
        rw [hrq] at hr
        exact hbnot hr
      have ha2 : (a, ca) ∈
          removePending ((nextReady resolved pending).map Prod.fst) pending := by
        refine List.mem_filter.mpr ⟨ha, ?_⟩
        simp only [Bool.not_eq_true']
        cases hx : ((nextReady resolved pending).map Prod.fst).contains a
        · rfl
        · exact absurd (by simpa using hx) hanames
      have hb2 : (b, cb) ∈
          removePending ((nextReady resolved pending).map Prod.fst) pending := by
        refine List.mem_filter.mpr ⟨hb, ?_⟩
        simp only [Bool.not_eq_true']
        cases hx : ((nextReady resolved pending).map Prod.fst).contains b
        · rfl
        · exact absurd (by simpa using hx) hbnames
      have hares2 : a ∉ resolved ++ (nextReady resolved pending).map Prod.fst := by
        intro hmem
        rcases List.mem_append.mp hmem with h4 | h4
        · exact hares h4
        · exact hanames h4
      have hbres2 : b ∉ resolved ++ (nextReady resolved pending).map Prod.fst := by
        intro hmem
        rcases List.mem_append.mp hmem with h4 | h4
        · exact hbres h4
        · exact hbnames h4
      have hstep : (resolveLoop (fuel + 1) resolved pending).2 =
          (resolveLoop fuel (resolved ++ (nextReady resolved pending).map Prod.fst)
            (removePending ((nextReady resolved pending).map Prod.fst) pending)).2 := by
        simp [resolveLoop, hpe, hre]
      rw [hstep]
      exact ih _ _ a b ca cb (removePending_nodup hnd) ha2 hb2 hbreq hareq hares2 hbres2


/-! ## Helper lemmas: engine -/

theorem mem_addFailed (fs : List String) (m n : String) :
    n ∈ addFailed fs m ↔ n ∈ fs ∨ n = m := by
  unfold addFailed
  by_cases hc : fs.contains m
  · have hm : m ∈ fs := by simpa using hc
    simp only [hc, if_true]
    constructor
    · exact Or.inl
    · rintro (h | rfl)
      · exact h
      · exact hm
  · simp only [hc, if_false]
    simp [List.mem_append]

theorem any_key_iff_hasKey (ps : List (String × PluginClass)) (k : String) :
    ps.any (fun p => p.1 == k) = true ↔ hasKey ps k := by
  simp [hasKey, List.any_eq_true, List.mem_map]

theorem keys_dictInsert_of_mem {ps : List (String × PluginClass)} {k : String}
    (v : PluginClass) (h : hasKey ps k) :
    (dictInsert ps k v).map Prod.fst = ps.map Prod.fst := by
  unfold dictInsert
  rw [if_pos ((any_key_iff_hasKey ps k).mpr h)]
  rw [List.map_map]
  apply List.map_congr_left
  intro p _
  by_cases hpk : p.1 = k
  · simp [hpk]
  · simp [hpk]

theorem keys_dictInsert_of_not_mem {ps : List (String × PluginClass)} {k : String}
    (v : PluginClass) (h : ¬ hasKey ps k) :
    (dictInsert ps k v).map Prod.fst = ps.map Prod.fst ++ [k] := by
  unfold dictInsert
  rw [if_neg (fun hc => h ((any_key_iff_hasKey ps k).mp hc))]
  simp

theorem hasKey_dictInsert (ps : List (String × PluginClass)) (k : String)
    (v : PluginClass) (n : String) :
    hasKey (dictInsert ps k v) n ↔ n = k ∨ hasKey ps n := by
  by_cases h : hasKey ps k
  · unfold hasKey
    rw [keys_dictInsert_of_mem v h]
    constructor
    · exact Or.inr
    · rintro (rfl | hn)
      · exact h
      · exact hn
  · unfold hasKey
    rw [keys_dictInsert_of_not_mem v h]
    simp [List.mem_append, or_comm]

theorem nodup_dictInsert {ps : List (String × PluginClass)} (k : String)
    (v : PluginClass) (h : (ps.map Prod.fst).Nodup) :
    ((dictInsert ps k v).map Prod.fst).Nodup := by
  by_cases hk : hasKey ps k
  · rw [keys_dictInsert_of_mem v hk]
    exact h
  · rw [keys_dictInsert_of_not_mem v hk]
    have hkn : k ∉ ps.map Prod.fst := hk
    simp [List.nodup_append, h, hkn]


theorem loadOne_of_raises {env : Env} {n : String}
    (h : discoveryRaises env n = true) (ps : List (String × PluginClass))
    (fs : List String) : loadOne env ps fs n = (some .loadErr, ps, fs) := by
  rcases hx : env.entry_points n with _ | ⟨ep, _ | ⟨e2, t⟩⟩
  · simp [discoveryRaises, hx] at h
  · rcases hl : ep.loadResult with cls | _ | _
    · simp [discoveryRaises, hx, hl] at h
    · simp [discoveryRaises, hx, hl] at h
    · simp [loadOne, hx, hl]
  · simp [discoveryRaises, hx] at h

theorem loadOne_of_fails {env : Env} {n : String}
    (h : discoveryFails env n = true) (ps : List (String × PluginClass))
    (fs : List String) : loadOne env ps fs n = (none, ps, addFailed fs n) := by
  rcases hx : env.entry_points n with _ | ⟨ep, _ | ⟨e2, t⟩⟩
  · simp [loadOne, hx]
  · rcases hl : ep.loadResult with cls | _ | _
    · have hcp : cls.is_plugin = false := by
        simpa [discoveryFails, hx, hl] using h
      simp [loadOne, hx, hl, hcp]
    · simp [loadOne, hx, hl]
    · simp [discoveryFails, hx, hl] at h
  · simp [loadOne, hx]

theorem loadOne_of_succeeds {env : Env} {n : String}
    (h : discoverySucceeds env n = true) :
    ∃ cls : PluginClass, ∀ (ps : List (String × PluginClass)) (fs : List String),
      loadOne env ps fs n = (none, dictInsert ps n cls, fs) := by
  have hf : discoveryFails env n = false := by
    cases hx : discoveryFails env n
    · rfl
    · rw [discoverySucceeds, hx] at h
      simp at h
  have hr : discoveryRaises env n = false := by
    cases hx : discoveryRaises env n
    · rfl
    · rw [discoverySucceeds, hx] at h
      simp at h
  rcases hx : env.entry_points n with _ | ⟨ep, _ | ⟨e2, t⟩⟩
  · simp [discoveryFails, hx] at hf
  · rcases hl : ep.loadResult with cls | _ | _
    · have hcp : cls.is_plugin = true := by
        simpa [discoveryFails, hx, hl] using hf
      refine ⟨{ cls with
          package_name :=
            some (String.mk (ep.module_name.toList.takeWhile (fun c => c != '.')))
          package_version :=
            some (env.distribution_version
              (String.mk (ep.module_name.toList.takeWhile (fun c => c != '.'))))
          version := match cls.version with
            | none => some (env.distribution_version
                (String.mk (ep.module_name.toList.takeWhile (fun c => c != '.'))))
            | some v => some v
          name := some n
          root_path := some (env.rootPathOf ep.module_name) },
        fun ps fs => ?_⟩
      simp [loadOne, hx, hl, hcp]
    · simp [discoveryFails, hx, hl] at hf
    · simp [discoveryRaises, hx, hl] at hr
  · simp [discoveryFails, hx] at hf

theorem discovery_not_both {env : Env} {n : String} :
    ¬(discoveryFails env n = true ∧ discoveryRaises env n = true) := by
  rintro ⟨hf, hr⟩
  rcases hx : env.entry_points n with _ | ⟨ep, _ | ⟨e2, t⟩⟩
  · simp [discoveryRaises, hx] at hr
  · rcases hl : ep.loadResult with cls | _ | _
    · simp [discoveryRaises, hx, hl] at hr
    · simp [discoveryRaises, hx, hl] at hr
    · simp [discoveryFails, hx, hl] at hf
  · simp [discoveryRaises, hx] at hr

theorem discovery_cases (env : Env) (n : String) :
    discoveryRaises env n = true ∨ discoveryFails env n = true ∨
      discoverySucceeds env n = true := by
  cases hr : discoveryRaises env n
  · cases hf : discoveryFails env n
    · exact Or.inr (Or.inr (by simp [discoverySucceeds, hr, hf]))
    · exact Or.inr (Or.inl rfl)
  · exact Or.inl rfl

theorem succeeds_not_fails {env : Env} {n : String}
    (h : discoverySucceeds env n = true) : discoveryFails env n = false := by
  cases hx : discoveryFails env n
  · rfl
  · rw [discoverySucceeds, hx] at h
    simp at h


theorem _import_plugins_cons_none {env : Env} {n0 : String} (rest : List String)
    {ps ps2 : List (String × PluginClass)} {fs fs2 : List String}
    (h : loadOne env ps fs n0 = (none, ps2, fs2)) :
    _import_plugins env (n0 :: rest) ps fs = _import_plugins env rest ps2 fs2 := by
  have heq : _import_plugins env (n0 :: rest) ps fs =
      match loadOne env ps fs n0 with
      | (some e, ps2, fs2) => (some e, ps2, fs2)
      | (none, ps2, fs2) => _import_plugins env rest ps2 fs2 := rfl
  rw [heq, h]

theorem _import_plugins_cons_some {env : Env} {n0 : String} (rest : List String)
    {ps ps2 : List (String × PluginClass)} {fs fs2 : List String} {e : PyErr}
    (h : loadOne env ps fs n0 = (some e, ps2, fs2)) :
    _import_plugins env (n0 :: rest) ps fs = (some e, ps2, fs2) := by
  have heq : _import_plugins env (n0 :: rest) ps fs =
      match loadOne env ps fs n0 with
      | (some e2, ps2, fs2) => (some e2, ps2, fs2)
      | (none, ps2, fs2) => _import_plugins env rest ps2 fs2 := rfl
  rw [heq, h]

theorem _import_plugins_spec (env : Env) :
    ∀ (names : List String) (ps : List (String × PluginClass)) (fs : List String)
      (cands : List (String × PluginClass)) (fs2 : List String),
      _import_plugins env names ps fs = (none, cands, fs2) →
      (∀ n, hasKey ps n → discoverySucceeds env n = true) →
      (∀ n, n ∈ fs → discoveryFails env n = true) →
      ((∀ n, hasKey cands n → discoverySucceeds env n = true) ∧
       (∀ n, n ∈ fs2 → discoveryFails env n = true) ∧
       (∀ n, n ∈ names → hasKey cands n ∨ n ∈ fs2) ∧
       (∀ n, hasKey cands n → hasKey ps n ∨ n ∈ names) ∧
       (∀ n, n ∈ fs2 → n ∈ fs ∨ n ∈ names) ∧
       (∀ n, n ∈ fs → n ∈ fs2) ∧
       (∀ n, hasKey ps n → hasKey cands n) ∧
       ((ps.map Prod.fst).Nodup → (cands.map Prod.fst).Nodup)) := by
  intro names
  induction names with
  | nil =>
    intro ps fs cands fs2 h hps hfs
    unfold _import_plugins at h
    simp only [Prod.mk.injEq] at h
    obtain ⟨-, h2, h3⟩ := h
    subst h2
    subst h3
    exact ⟨hps, hfs, by simp, fun n hn => Or.inl hn, fun n hn => Or.inl hn,
      fun n hn => hn, fun n hn => hn, id⟩
  | cons n0 rest ih =>
    intro ps fs cands fs2 h hps hfs
    rcases discovery_cases env n0 with hr | hf | hsucc
    · rw [_import_plugins_cons_some rest (loadOne_of_raises hr ps fs)] at h
      simp at h
    · rw [_import_plugins_cons_none rest (loadOne_of_fails hf ps fs)] at h
      have hfs2 : ∀ n, n ∈ addFailed fs n0 → discoveryFails env n = true := by
        intro n hn
        rcases (mem_addFailed fs n0 n).mp hn with hn2 | rfl
        · exact hfs n hn2
        · exact hf
      obtain ⟨g1, g2, g3, g4, g5, g6, g7, g8⟩ :=
        ih ps (addFailed fs n0) cands fs2 h hps hfs2
      refine ⟨g1, g2, ?_, ?_, ?_, ?_, g7, g8⟩
      · intro n hn
        rcases List.mem_cons.mp hn with rfl | hn2
        · exact Or.inr (g6 n ((mem_addFailed fs n n).mpr (Or.inr rfl)))
        · exact g3 n hn2
      · intro n hn
        rcases g4 n hn with hk | hn2
        · exact Or.inl hk
        · exact Or.inr (List.mem_cons_of_mem n0 hn2)
      · intro n hn
        rcases g5 n hn with hn2 | hn2
        · rcases (mem_addFailed fs n0 n).mp hn2 with hn3 | rfl
          · exact Or.inl hn3
          · exact Or.inr (List.mem_cons_self _ _)
        · exact Or.inr (List.mem_cons_of_mem n0 hn2)
      · intro n hn
        exact g6 n ((mem_addFailed fs n0 n).mpr (Or.inl hn))
    · obtain ⟨cls, hcl⟩ := loadOne_of_succeeds hsucc
      rw [_import_plugins_cons_none rest (hcl ps fs)] at h
      have hps2 : ∀ n, hasKey (dictInsert ps n0 cls) n →
          discoverySucceeds env n = true := by
        intro n hn
        rcases (hasKey_dictInsert ps n0 cls n).mp hn with rfl | hn2
        · exact hsucc
        · exact hps n hn2
      obtain ⟨g1, g2, g3, g4, g5, g6, g7, g8⟩ :=
        ih (dictInsert ps n0 cls) fs cands fs2 h hps2 hfs
      refine ⟨g1, g2, ?_, ?_, ?_, g6, ?_, ?_⟩
      · intro n hn
        rcases List.mem_cons.mp hn with rfl | hn2
        · exact Or.inl (g7 n ((hasKey_dictInsert ps n cls n).mpr (Or.inl rfl)))
        · exact g3 n hn2
      · intro n hn
        rcases g4 n hn with hk | hn2
        · rcases (hasKey_dictInsert ps n0 cls n).mp hk with rfl | hk2
          · exact Or.inr (List.mem_cons_self _ _)
          · exact Or.inl hk2
        · exact Or.inr (List.mem_cons_of_mem n0 hn2)
      · intro n hn
        rcases g5 n hn with hn2 | hn2
        · exact Or.inl hn2
        · exact Or.inr (List.mem_cons_of_mem n0 hn2)
      · intro n hn
        exact g7 n ((hasKey_dictInsert ps n0 cls n).mpr (Or.inr hn))
      · intro hnd
        exact g8 (nodup_dictInsert n0 cls hnd)


theorem hasKey_foldl_dictInsert :
    ∀ (l acc : List (String × PluginClass)) (n : String),
      hasKey (l.foldl (fun a p => dictInsert a p.1 p.2) acc) n ↔
        hasKey acc n ∨ n ∈ l.map Prod.fst := by
  intro l
  induction l with
  | nil => simp
  | cons p t ih =>
    intro acc n
    simp only [List.foldl_cons, List.map_cons, List.mem_cons]
    rw [ih, hasKey_dictInsert]
    tauto

theorem load_plugins_loaded_after (env : Env) (names : List String) (skip : Bool)
    (st : EngineSt) (hld : st.plugins_loaded = false) :
    (load_plugins env names skip st).2.plugins_loaded = true := by
  unfold load_plugins
  simp only [hld, Bool.false_eq_true, if_false]
  split
  · rfl
  · split
    · rfl
    · split
      · rfl
      · rfl

theorem _import_plugins_failed_mono (env : Env) :
    ∀ (names : List String) (ps : List (String × PluginClass)) (fs : List String)
      (n : String), n ∈ fs → n ∈ (_import_plugins env names ps fs).2.2 := by
  intro names
  induction names with
  | nil =>
    intro ps fs n hn
    simpa [_import_plugins] using hn
  | cons n0 rest ih =>
    intro ps fs n hn
    rcases discovery_cases env n0 with hr | hf | hsucc
    · rw [_import_plugins_cons_some rest (loadOne_of_raises hr ps fs)]
      exact hn
    · rw [_import_plugins_cons_none rest (loadOne_of_fails hf ps fs)]
      exact ih _ _ n ((mem_addFailed fs n0 n).mpr (Or.inl hn))
    · obtain ⟨cls, hcl⟩ := loadOne_of_succeeds hsucc
      rw [_import_plugins_cons_none rest (hcl ps fs)]
      exact ih _ _ n hn



/-! ## Helper lemmas: context stack, memoized wrapping, docstrings -/

theorem runBody_stack_preserved :
    ∀ (b : Body) (s : List Nat),
      (runBody b s).1 = s ∧ (runBody b s).2 ≠ BodyResult.assertFail := by
  intro b
  induction b with
  | ret => intro s; exact ⟨rfl, by simp [runBody]⟩
  | raise => intro s; exact ⟨rfl, by simp [runBody]⟩
  | seq b1 b2 ih1 ih2 =>
    intro s
    obtain ⟨h1, h2⟩ := ih1 s
    rcases hx : runBody b1 s with ⟨s1, r1⟩
    rw [hx] at h1 h2
    simp only at h1 h2
    have heq0 : runBody (Body.seq b1 b2) s =
        match runBody b1 s with
        | (s2, BodyResult.normal) => runBody b2 s2
        | r => r := rfl
    cases r1 with
    | normal =>
      have heq : runBody (Body.seq b1 b2) s = runBody b2 s1 := by
        rw [heq0, hx]
      rw [heq, h1]
      exact ih2 s
    | raised =>
      have heq : runBody (Body.seq b1 b2) s = (s1, BodyResult.raised) := by
        rw [heq0, hx]
      rw [heq]
      exact ⟨h1, by simp⟩
    | assertFail => exact absurd rfl h2
  | scope p b ih =>
    intro s
    obtain ⟨h1, h2⟩ := ih (p :: s)
    rcases hx : runBody b (p :: s) with ⟨s1, r1⟩
    rw [hx] at h1 h2
    simp only at h1 h2
    have heq0 : runBody (Body.scope p b) s =
        (let r := runBody b (p :: s)
         match r.1 with
         | [] => ([], BodyResult.assertFail)
         | top :: rest =>
           if top = p then (rest, r.2) else (rest, BodyResult.assertFail)) := rfl
    have heq : runBody (Body.scope p b) s = (s, r1) := by
      rw [heq0, hx]
      simp [h1]
    rw [heq]
    exact ⟨rfl, h2⟩

theorem runBody_scoped_eq (p : Nat) (b : Body) (s : List Nat) :
    runBody (Body.scope p b) s = (s, (runBody b (p :: s)).2) := by
  obtain ⟨h1, h2⟩ := runBody_stack_preserved b (p :: s)
  rcases hx : runBody b (p :: s) with ⟨s1, r1⟩
  rw [hx] at h1
  simp only at h1
  have heq0 : runBody (Body.scope p b) s =
      (let r := runBody b (p :: s)
       match r.1 with
       | [] => ([], BodyResult.assertFail)
       | top :: rest =>
         if top = p then (rest, r.2) else (rest, BodyResult.assertFail)) := rfl
  rw [heq0, hx]
  simp [h1]

theorem cacheFind_append_self {c : MemoCache} {k : MemoKey}
    (h : cacheFind c k = none) (hrefl : keyBeq k k = true) (w : Nat) :
    cacheFind (c ++ [(k, w)]) k = some w := by
  induction c with
  | nil => simp [cacheFind, hrefl]
  | cons hd t ih =>
    rcases hd with ⟨k1, w1⟩
    unfold cacheFind at h
    by_cases hk : keyBeq k1 k = true
    · rw [if_pos hk] at h
      cases h
    · rw [if_neg hk] at h
      rw [List.cons_append,
        show cacheFind ((k1, w1) :: (t ++ [(k, w)])) k =
          if keyBeq k1 k = true then some w1 else cacheFind (t ++ [(k, w)]) k
          from rfl,
        if_neg hk]
      exact ih h

theorem takeWhile_all_of_not_contains {t : List Char}
    (h : t.contains '\n' = false) :
    t.takeWhile (fun c => c != '\n') = t := by
  apply List.takeWhile_eq_self_iff.mpr
  intro x hx
  have hne : x ≠ '\n' := by
    intro hEq
    subst hEq
    have hcm : t.contains '\n' = true := by simpa using hx
    rw [hcm] at h
    cases h
  simpa using hne


/-! ## Claim theorems -/

/-- Claim C2 (amended): when `load_plugins` returns normally on a fresh
engine, `plugins` and `failed` are disjoint and both contained in the
requested names; every requested name lands in exactly one of them when
`skip_failed` is true or when no name failed; but when `skip_failed` is
false and some name failed, no plugin is instantiated
(`get_active_plugins` is empty), so requested names that passed discovery
are in neither set. -/
theorem load_plugins_state_partition (env : Env) (names : List String)
    (skip : Bool) (st : EngineSt) (hld : st.plugins_loaded = false)
    (hpl : st.plugins = []) (hfl : st.failed = []) (b : Bool) (st2 : EngineSt)
    (h : load_plugins env names skip st = (Except.ok b, st2)) :
    (∀ n, ¬(hasKey (get_active_plugins st2) n ∧ n ∈ get_failed_plugins st2)) ∧
    (∀ n, hasKey (get_active_plugins st2) n ∨ n ∈ get_failed_plugins st2 →
      n ∈ names) ∧
    ((skip = true ∨ get_failed_plugins st2 = []) →
      ∀ n ∈ names,
        hasKey (get_active_plugins st2) n ∨ n ∈ get_failed_plugins st2) ∧
    (skip = false → get_failed_plugins st2 ≠ [] →
      get_active_plugins st2 = []) := by
  rcases himp : _import_plugins env names [] st.failed with ⟨e, cands, fs2⟩
  have himp0 : _import_plugins env names [] [] = (e, cands, fs2) := by
    rw [← hfl]
    exact himp
  cases e with
  | some e =>
    rw [load_plugins_of_raise skip hld himp] at h
    simp at h
  | none =>
    obtain ⟨g1, g2, g3, g4, g5, g6, g7, g8⟩ :=
      _import_plugins_spec env names [] [] cands fs2 himp0
        (by intro n hn; simp [hasKey] at hn) (by intro n hn; cases hn)
    by_cases hc : (!fs2.isEmpty && !skip) = true
    · have hskf : skip = false := by
        rcases (Bool.and_eq_true _ _).mp hc with ⟨-, h2⟩
        simpa using h2
      have hfe : fs2.isEmpty = false := by
        rcases (Bool.and_eq_true _ _).mp hc with ⟨h1, -⟩
        simpa using h1
      subst hskf
      rw [load_plugins_of_noskip hld himp hfe] at h
      simp only [Prod.mk.injEq, Except.ok.injEq] at h
      obtain ⟨hb, hst⟩ := h
      subst hst
      refine ⟨?_, ?_, ?_, ?_⟩
      · intro n hn
        have hk := hn.1
        simp [get_active_plugins, hasKey, hpl] at hk
      · intro n hn
        rcases hn with hk | hm
        · simp [get_active_plugins, hasKey, hpl] at hk
        · rcases g5 n hm with h4 | h4
          · cases h4
          · exact h4
      · rintro (hski | hfee)
        · cases hski
        · have : fs2 = [] := hfee
          rw [this] at hfe
          simp at hfe
      · intro _ _
        simp [get_active_plugins, hpl]
    · have hcf : (!fs2.isEmpty && !skip) = false := by
        cases hx : (!fs2.isEmpty && !skip)
        · rfl
        · exact absurd hx hc
      by_cases hok : (resolve_dependencies cands).2 = true
      · rw [load_plugins_of_ok hld himp hcf hok] at h
        simp only [Prod.mk.injEq, Except.ok.injEq] at h
        obtain ⟨hb, hst⟩ := h
        subst hst
        have hnd : (cands.map Prod.fst).Nodup := g8 (by simp)
        have hperm : (resolve_dependencies cands).1.Perm cands :=
          resolveLoop_perm cands.length [] cands hnd hok
        have hkeys : ∀ n, hasKey
            ((resolve_dependencies cands).1.foldl
              (fun acc p => dictInsert acc p.1 p.2) st.plugins) n ↔
            hasKey cands n := by
          intro n
          rw [hasKey_foldl_dictInsert]
          unfold hasKey
          rw [hpl]
          simp only [List.map_nil, List.not_mem_nil, false_or]
          exact (hperm.map Prod.fst).mem_iff
        refine ⟨?_, ?_, ?_, ?_⟩
        · rintro n ⟨hk, hm⟩
          have hs := g1 n ((hkeys n).mp hk)
          have hf2 := g2 n hm
          rw [succeeds_not_fails hs] at hf2
          cases hf2
        · intro n hn
          rcases hn with hk | hm
          · rcases g4 n ((hkeys n).mp hk) with h4 | h4
            · simp [hasKey] at h4
            · exact h4
          · rcases g5 n hm with h4 | h4
            · cases h4
            · exact h4
        · intro _ n hn
          rcases g3 n hn with h4 | h4
          · exact Or.inl ((hkeys n).mpr h4)
          · exact Or.inr h4
        · intro hskf hfe2
          rcases Bool.and_eq_false_iff.mp hcf with h4 | h4
          · have hfnil : fs2 = [] := by simpa using h4
            exact absurd hfnil (by simpa [get_failed_plugins] using hfe2)
          · rw [hskf] at h4
            simp at h4
      · have hokf : (resolve_dependencies cands).2 = false := by
          cases hx : (resolve_dependencies cands).2
          · rfl
          · exact absurd hx hok
        rw [load_plugins_of_unresolvable hld himp hcf hokf] at h
        simp at h

/-- Claim C1 (amended): when `resolve_dependencies` is fully consumed without
raising, every name in a yielded candidate's required set appears strictly
earlier in the yielded sequence.  (The analogous guarantee for the used set
fails in general; see the counterexample.) -/
theorem resolve_dependencies_required_before
    (plugins : List (String × PluginClass))
    (_hok : (resolve_dependencies plugins).2 = true)
    (pre : List (String × PluginClass)) (p : String × PluginClass)
    (post : List (String × PluginClass))
    (hsplit : (resolve_dependencies plugins).1 = pre ++ p :: post) :
    ∀ d ∈ p.2.required_plugins, d ∈ pre.map Prod.fst := by
  intro d hd
  rcases resolveLoop_required_earlier plugins.length [] plugins pre p post
    hsplit d hd with h | h
  · cases h
  · exact h

/-- Claim C1, witness: on the chain `a`, `b requires a`, applying the theorem
at the second yielded element puts `a` before `b`. -/
theorem resolve_dependencies_required_before_witness :
    "a" ∈ ([("a", pcPlain)].map Prod.fst) :=
  resolve_dependencies_required_before chainPlugins (by decide)
    [("a", pcPlain)] ("b", pcNeedsA) [] (by decide) "a" (by decide)

/-- Claim C1, counterexample: on the soft-dependency cycle `a uses b`,
`b uses a` the resolver succeeds, but the first yielded name has a used
dependency that is a key of the input mapping and appears strictly later,
refuting the used-set clause of the claim as stated. -/
theorem resolve_dependencies_used_clause_false :
    ¬((resolve_dependencies softCyclePlugins).2 = true →
      ∀ (pre : List (String × PluginClass)) (p : String × PluginClass)
        (post : List (String × PluginClass)),
        (resolve_dependencies softCyclePlugins).1 = pre ++ p :: post →
        (∀ d ∈ p.2.required_plugins, d ∈ pre.map Prod.fst) ∧
        (∀ d ∈ p.2.used_plugins, d ∈ softCyclePlugins.map Prod.fst →
          d ∈ pre.map Prod.fst)) := by
  intro hcl
  have h2 := (hcl (by decide) [] ("a", pcUsesB) [("b", pcUsesA)] (by decide)).2
    "b" (by decide) (by decide)
  simp at h2

/-- Claim C10: when `resolve_dependencies` is fully consumed without raising
on a candidate mapping (duplicate-free keys, as for a Python dict), the
yielded sequence is a permutation of the input: every key appears exactly
once, paired with its class. -/
theorem resolve_dependencies_permutes (plugins : List (String × PluginClass))
    (hnd : (plugins.map Prod.fst).Nodup)
    (hok : (resolve_dependencies plugins).2 = true) :
    (resolve_dependencies plugins).1.Perm plugins :=
  resolveLoop_perm plugins.length [] plugins hnd hok

/-- Claim C10, witness: the chain `a`, `b requires a` resolves to a
permutation of itself. -/
theorem resolve_dependencies_permutes_witness :
    (resolve_dependencies chainPlugins).1.Perm chainPlugins :=
  resolve_dependencies_permutes chainPlugins (by decide) (by decide)

/-- Claim C3: a pure required-dependency cycle makes `resolve_dependencies`
raise, and in general the resolver raises exactly when it can reach a state
where unresolved candidates remain but none has all its required
dependencies inside the already-resolved set. -/
theorem resolve_dependencies_raise_iff (plugins : List (String × PluginClass)) :
    ((plugins.map Prod.fst).Nodup →
      ∀ (a b : String) (ca cb : PluginClass),
        (a, ca) ∈ plugins → (b, cb) ∈ plugins →
        b ∈ ca.required_plugins → a ∈ cb.required_plugins →
        (resolve_dependencies plugins).2 = false) ∧
    ((resolve_dependencies plugins).2 = false ↔ Unresolvable [] plugins) := by
  constructor
  · intro hnd a b ca cb ha hb h1 h2
    exact resolveLoop_cycle_false plugins.length [] plugins a b ca cb hnd ha hb
      h1 h2 (List.not_mem_nil a) (List.not_mem_nil b)
  · constructor
    · intro h
      exact resolveLoop_false_unresolvable plugins.length [] plugins
        (Nat.le_refl _) h
    · intro h
      exact unresolvable_resolveLoop_false h plugins.length (Nat.le_refl _)

/-- Claim C3, witness: the two-candidate required cycle raises. -/
theorem resolve_dependencies_raise_iff_witness :
    (resolve_dependencies hardCyclePlugins).2 = false :=
  (resolve_dependencies_raise_iff hardCyclePlugins).1 (by decide)
    "a" "b" pcNeedsB pcNeedsA (by decide) (by decide) (by decide) (by decide)

/-- Claim C4: after any first `load_plugins` call on a fresh engine —
whatever its outcome — every further call raises the double-load
`RuntimeError` and leaves the engine state (in particular `plugins` and
`failed`) unchanged. -/
theorem load_plugins_double_load (env : Env) (names : List String) (skip : Bool)
    (st : EngineSt) (hld : st.plugins_loaded = false)
    (env2 : Env) (names2 : List String) (skip2 : Bool) :
    load_plugins env2 names2 skip2 (load_plugins env names skip st).2 =
      (Except.error PyErr.doubleLoad, (load_plugins env names skip st).2) := by
  have hl := load_plugins_loaded_after env names skip st hld
  set st1 := (load_plugins env names skip st).2 with hst1
  unfold load_plugins
  simp [hl]

/-- Claim C4, witness: loading twice with an empty request list raises the
double-load error the second time. -/
theorem load_plugins_double_load_witness :
    load_plugins envMixed [] true (load_plugins envMixed [] true {}).2 =
      (Except.error PyErr.doubleLoad, (load_plugins envMixed [] true {}).2) :=
  load_plugins_double_load envMixed [] true {} rfl envMixed [] true


/-- Claim C2, witness: loading `good` (one valid entry point) and `bad` (no
entry point) with `skip_failed = true` satisfies the partition properties. -/
theorem load_plugins_state_partition_witness :
    (∀ n, ¬(hasKey (get_active_plugins stMixedLoaded) n ∧
      n ∈ get_failed_plugins stMixedLoaded)) ∧
    (∀ n, hasKey (get_active_plugins stMixedLoaded) n ∨
      n ∈ get_failed_plugins stMixedLoaded → n ∈ ["good", "bad"]) ∧
    ((true = true ∨ get_failed_plugins stMixedLoaded = []) →
      ∀ n ∈ ["good", "bad"],
        hasKey (get_active_plugins stMixedLoaded) n ∨
          n ∈ get_failed_plugins stMixedLoaded) ∧
    (true = false → get_failed_plugins stMixedLoaded ≠ [] →
      get_active_plugins stMixedLoaded = []) :=
  load_plugins_state_partition envMixed ["good", "bad"] true {} rfl rfl rfl
    false stMixedLoaded rfl

/-- Claim C2, counterexample: with `skip_failed = false` and the mixed
request `good`, `bad`, the call returns normally (`False`) but `good`
ends up in neither `plugins` nor `failed`, refuting the claim that every
requested name lands in exactly one of the two sets whenever the call
returns normally. -/
theorem load_plugins_exactly_one_false :
    (load_plugins envMixed ["good", "bad"] false {}).1 = Except.ok false ∧
    ¬(hasKey (get_active_plugins (load_plugins envMixed ["good", "bad"] false {}).2)
        "good" ∨
      "good" ∈ get_failed_plugins (load_plugins envMixed ["good", "bad"] false {}).2) := by
  constructor
  · rfl
  · decide


/-- Claim C5 (amended): a materialization failure that raises `ImportError`
is recorded in `failed` and the import loop continues with the remaining
names; a materialization failure raising any other exception is not caught:
it is not recorded and aborts the import loop immediately. -/
theorem load_step_materialize_failure (env : Env) (n : String)
    (rest : List String) (ps : List (String × PluginClass)) (fs : List String)
    (ep : EntryPoint) (h1 : env.entry_points n = [ep]) :
    (ep.loadResult = .errImport →
      _import_plugins env (n :: rest) ps fs =
        _import_plugins env rest ps (addFailed fs n) ∧
      n ∈ (_import_plugins env (n :: rest) ps fs).2.2) ∧
    (ep.loadResult = .errOther →
      _import_plugins env (n :: rest) ps fs = (some PyErr.loadErr, ps, fs)) := by
  constructor
  · intro hl
    have hf : discoveryFails env n = true := by
      simp [discoveryFails, h1, hl]
    have heq := _import_plugins_cons_none rest (loadOne_of_fails hf ps fs)
    refine ⟨heq, ?_⟩
    rw [heq]
    exact _import_plugins_failed_mono env rest ps (addFailed fs n) n
      ((mem_addFailed fs n n).mpr (Or.inr rfl))
  · intro hl
    have hr : discoveryRaises env n = true := by
      simp [discoveryRaises, h1, hl]
    exact _import_plugins_cons_some rest (loadOne_of_raises hr ps fs)

/-- Claim C5, witness: with the `ImportError` entry point for `x`, loading
the names `x`, `y` records `x` as failed and goes on to process `y`. -/
theorem load_step_materialize_failure_witness :
    (_import_plugins envImpFail ["x", "y"] [] [] =
      _import_plugins envImpFail ["y"] [] (addFailed [] "x")) ∧
    "x" ∈ (_import_plugins envImpFail ["x", "y"] [] []).2.2 :=
  (load_step_materialize_failure envImpFail "x" ["y"] [] []
    { module_name := "pkg.mod", loadResult := .errImport } (by decide)).1 rfl

/-- Claim C5, counterexample: when the load step of `boom` raises a
non-ImportError exception, `load_plugins` aborts with that exception,
`boom` is not recorded in `failed`, and the later name `later` is never
processed — refuting the claim for every kind of materialization failure. -/
theorem load_step_materialize_failure_claim_false :
    (load_plugins envOther ["boom", "later"] true {}).1 =
      Except.error PyErr.loadErr ∧
    "boom" ∉ get_failed_plugins (load_plugins envOther ["boom", "later"] true {}).2 ∧
    ¬ hasKey (get_active_plugins (load_plugins envOther ["boom", "later"] true {}).2)
        "later" := by
  refine ⟨rfl, ?_, ?_⟩
  · decide
  · decide

/-- Claim C6: when the discovery phase completes and records at least one
failure, `load_plugins` with `skip_failed = false` returns `False` right
after the discovery phase without instantiating any plugin:
`get_active_plugins` stays empty on a fresh engine. -/
theorem load_plugins_skip_failed_false_aborts (env : Env) (names : List String)
    (st : EngineSt) (hld : st.plugins_loaded = false) (hpl : st.plugins = [])
    (cands : List (String × PluginClass)) (fs2 : List String)
    (himp : _import_plugins env names [] st.failed = (none, cands, fs2))
    (hfail : fs2 ≠ []) :
    load_plugins env names false st =
      (Except.ok false, { st with plugins_loaded := true, failed := fs2 }) ∧
    get_active_plugins { st with plugins_loaded := true, failed := fs2 } = [] := by
  have hne : fs2.isEmpty = false := by
    cases hx : fs2.isEmpty
    · rfl
    · exact absurd (List.isEmpty_iff.mp hx) hfail
  refine ⟨load_plugins_of_noskip hld himp hne, ?_⟩
  simpa [get_active_plugins] using hpl

/-- Claim C6, witness: requesting `good`, `bad` with `skip_failed = false`
returns `False` and leaves the active-plugin mapping empty even though
`good` was discovered successfully. -/
theorem load_plugins_skip_failed_false_aborts_witness :
    load_plugins envMixed ["good", "bad"] false {} =
      (Except.ok false,
        { ({} : EngineSt) with plugins_loaded := true, failed := ["bad"] }) ∧
    get_active_plugins
        { ({} : EngineSt) with plugins_loaded := true, failed := ["bad"] } = [] :=
  load_plugins_skip_failed_false_aborts envMixed ["good", "bad"] {} rfl rfl
    (_import_plugins envMixed ["good", "bad"] [] []).2.1 ["bad"]
    (by decide) (by decide)


/-- Claim C7: entering `plugin_context` runs the body with the plugin pushed
on the context stack and restores the stack to its prior state on every exit
path, popping exactly the pushed plugin (the mismatch assertion never fires
when all stack use goes through scoped acquisition); arbitrary nestings of
scoped acquisitions therefore unwind in strict reverse order of entry. -/
theorem plugin_context_scoped_balanced (p : Nat) (b : Body) (s : List Nat) :
    runBody (Body.scope p b) s = (s, (runBody b (p :: s)).2) ∧
    (runBody (Body.scope p b) s).2 ≠ BodyResult.assertFail ∧
    (runBody b s).1 = s ∧ (runBody b s).2 ≠ BodyResult.assertFail := by
  refine ⟨runBody_scoped_eq p b s, ?_, runBody_stack_preserved b s⟩
  rw [runBody_scoped_eq p b s]
  simpa using (runBody_stack_preserved b (p :: s)).2

/-- Claim C8: the memoized `wrap_in_plugin_context` is idempotent on a
`(plugin, callable)` pair — the second call with the same pair returns the
very same wrapper identity as the first and leaves the cache unchanged, so
repeated registration de-duplicates by identity. -/
theorem wrap_in_plugin_context_idempotent (cache : MemoCache) (fresh : Nat)
    (p f : Nat) :
    wrap_in_plugin_context
        (wrap_in_plugin_context cache fresh (.atom p) (.atom f)).2.1
        (wrap_in_plugin_context cache fresh (.atom p) (.atom f)).2.2
        (.atom p) (.atom f) =
      ((wrap_in_plugin_context cache fresh (.atom p) (.atom f)).1,
        (wrap_in_plugin_context cache fresh (.atom p) (.atom f)).2.1,
        (wrap_in_plugin_context cache fresh (.atom p) (.atom f)).2.2) := by
  have hrefl : keyBeq (PyVal.tup [PyVal.atom p, PyVal.atom f], PyVal.frozen [])
      (PyVal.tup [PyVal.atom p, PyVal.atom f], PyVal.frozen []) = true := by
    simp [keyBeq, pyValBeq, pyListBeq, pyPairsBeq]
  have hkey : (make_hashable (PyVal.tup [PyVal.atom p, PyVal.atom f]),
      make_hashable (PyVal.dict [])) =
      ((PyVal.tup [PyVal.atom p, PyVal.atom f], PyVal.frozen []) : MemoKey) := rfl
  cases hx : cacheFind cache (PyVal.tup [PyVal.atom p, PyVal.atom f], PyVal.frozen []) with
  | some w =>
    simp [wrap_in_plugin_context, hkey, hx]
  | none =>
    have hfind := cacheFind_append_self hx hrefl fresh
    simp [wrap_in_plugin_context, hkey, hx, hfind]

/-- Claim C9: `Plugin.title` is the stripped first line of the PEP-257
trimmed docstring, `Plugin.description` is the stripped remainder after the
first line break of the trimmed docstring (falling back to the fixed string
when there is none), and an absent or empty docstring yields an empty title
and the fixed `no description available` description. -/
theorem title_description_spec (doc : List Char) :
    Plugin.title doc = pyStrip (firstLine (trim_docstring doc)) ∧
    Plugin.description doc =
      (if (trim_docstring doc).contains '\n' then
        pyStrip (afterFirstLine (trim_docstring doc))
      else noDescription) ∧
    (doc = [] → Plugin.title doc = [] ∧ Plugin.description doc = noDescription) := by
  refine ⟨?_, ?_, ?_⟩
  · unfold Plugin.title splitOnceNl firstLine
    by_cases hc : '\n' ∈ trim_docstring doc
    · simp [hc]
    · have hcf : (trim_docstring doc).contains '\n' = false := by simpa using hc
      simp [hc]
      rw [takeWhile_all_of_not_contains hcf]
  · unfold Plugin.description splitOnceNl afterFirstLine
    by_cases hc : '\n' ∈ trim_docstring doc
    · simp [hc]
    · simp [hc]
  · intro h
    subst h
    exact ⟨by decide, by decide⟩

/-- Claim C9, witness: the empty (absent) docstring yields an empty title
and the fixed description. -/
theorem title_description_spec_witness :
    Plugin.title [] = [] ∧ Plugin.description [] = noDescription :=
  (title_description_spec []).2.2 rfl

end Pluginengine
